import Mathlib

set_option maxRecDepth 10000

/- Verification of the incremental Markdown publish-and-annotate engine
   (`app.py`): the webhook signature check, the webhook dispatcher, and the
   per-user sync loop `process_user`.

   External collaborators (Dropbox storage API, redis key-value stores, the
   Markdown renderer) are modelled as oracle functions bundled in a `World`;
   the engine itself is translated statement by statement from the source,
   and produces an explicit trace of the storage calls it makes, so that
   claims about which calls happen (and in which order) are provable. -/

/-! ## SHA-256 and HMAC-SHA256 over byte lists (model of `hashlib` / `hmac`)

Bytes are `Nat`s below 256.  This models the Python standard library calls
`hmac.new(key, msg, sha256).hexdigest()` used by `validate_request`. -/

def mask32 (x : Nat) : Nat := x &&& 4294967295

def rotr32 (k x : Nat) : Nat := mask32 ((x >>> k) ||| (x <<< (32 - k)))

def shaCh (x y z : Nat) : Nat := (x &&& y) ^^^ ((x ^^^ 4294967295) &&& z)

def shaMaj (x y z : Nat) : Nat := (x &&& y) ^^^ (x &&& z) ^^^ (y &&& z)

def bigSigma0 (x : Nat) : Nat := rotr32 2 x ^^^ rotr32 13 x ^^^ rotr32 22 x

def bigSigma1 (x : Nat) : Nat := rotr32 6 x ^^^ rotr32 11 x ^^^ rotr32 25 x

def smallSigma0 (x : Nat) : Nat := rotr32 7 x ^^^ rotr32 18 x ^^^ (x >>> 3)

def smallSigma1 (x : Nat) : Nat := rotr32 17 x ^^^ rotr32 19 x ^^^ (x >>> 10)

def shaK : List Nat :=
  [1116352408, 1899447441, 3049323471, 3921009573, 961987163, 1508970993,
   2453635748, 2870763221, 3624381080, 310598401, 607225278, 1426881987,
   1925078388, 2162078206, 2614888103, 3248222580, 3835390401, 4022224774,
   264347078, 604807628, 770255983, 1249150122, 1555081692, 1996064986,
   2554220882, 2821834349, 2952996808, 3210313671, 3336571891, 3584528711,
   113926993, 338241895, 666307205, 773529912, 1294757372, 1396182291,
   1695183700, 1986661051, 2177026350, 2456956037, 2730485921, 2820302411,
   3259730800, 3345764771, 3516065817, 3600352804, 4094571909, 275423344,
   430227734, 506948616, 659060556, 883997877, 958139571, 1322822218,
   1537002063, 1747873779, 1955562222, 2024104815, 2227730452, 2361852424,
   2428436474, 2756734187, 3204031479, 3329325298]

def shaH0 : List Nat :=
  [1779033703, 3144134277, 1013904242, 2773480762,
   1359893119, 2600822924, 528734635, 1541459225]

/-- bytes of the 64-bit big-endian message-length field -/
def lenBytes (n : Nat) : List Nat :=
  [n >>> 56 % 256, n >>> 48 % 256, n >>> 40 % 256, n >>> 32 % 256,
   n >>> 24 % 256, n >>> 16 % 256, n >>> 8 % 256, n % 256]

def padMessage (msg : List Nat) : List Nat :=
  let len := msg.length
  let k := (119 - (len % 64)) % 64
  msg ++ [128] ++ List.replicate k 0 ++ lenBytes (len * 8)

/-- split a byte list into 64-byte chunks (fuel-driven) -/
def chunk64 : Nat → List Nat → List (List Nat)
  | 0, _ => []
  | _, [] => []
  | fuel + 1, l => l.take 64 :: chunk64 fuel (l.drop 64)

/-- 4 bytes, big-endian, to one 32-bit word -/
def wordsOfBytes : List Nat → List Nat
  | b0 :: b1 :: b2 :: b3 :: rest =>
      (b0 <<< 24 ||| b1 <<< 16 ||| b2 <<< 8 ||| b3) :: wordsOfBytes rest
  | _ => []

/-- message schedule: extend the 16 block words to 64.  The accumulator is
the schedule so far, most recent word first. -/
def extendSchedule : Nat → List Nat → List Nat
  | 0, wrev => wrev.reverse
  | fuel + 1, wrev =>
      let w2 := wrev.getD 1 0
      let w7 := wrev.getD 6 0
      let w15 := wrev.getD 14 0
      let w16 := wrev.getD 15 0
      let nw := mask32 (smallSigma1 w2 + w7 + smallSigma0 w15 + w16)
      extendSchedule fuel (nw :: wrev)

def schedule (block : List Nat) : List Nat :=
  extendSchedule 48 (wordsOfBytes block).reverse

def compressStep (st : List Nat) (kw : Nat × Nat) : List Nat :=
  match st with
  | [a, b, c, d, e, f, g, h] =>
      let t1 := mask32 (h + bigSigma1 e + shaCh e f g + kw.1 + kw.2)
      let t2 := mask32 (bigSigma0 a + shaMaj a b c)
      [mask32 (t1 + t2), a, b, c, mask32 (d + t1), e, f, g]
  | other => other

def compressBlock (h : List Nat) (block : List Nat) : List Nat :=
  let w := schedule block
  let st := (shaK.zip w).foldl compressStep h
  (h.zip st).map (fun p => mask32 (p.1 + p.2))

def sha256 (msg : List Nat) : List Nat :=
  let blocks := chunk64 (msg.length / 64 + 2) (padMessage msg)
  let hFinal := blocks.foldl compressBlock shaH0
  hFinal.flatMap (fun w => [w >>> 24 % 256, w >>> 16 % 256, w >>> 8 % 256, w % 256])

def hexChar (n : Nat) : Char := "0123456789abcdef".data.getD n '0'

/-- lowercase hex encoding, as Python `.hexdigest()` produces -/
def hexdigest (bytes : List Nat) : String :=
  String.mk (bytes.flatMap (fun b => [hexChar (b / 16 % 16), hexChar (b % 16)]))

/-- UTF-8 encoding of one character (model of Python `str.encode()`) -/
def utf8Bytes (c : Char) : List Nat :=
  let n := c.toNat
  if n < 128 then [n]
  else if n < 2048 then [192 ||| (n >>> 6), 128 ||| (n &&& 63)]
  else if n < 65536 then [224 ||| (n >>> 12), 128 ||| (n >>> 6 &&& 63), 128 ||| (n &&& 63)]
  else [240 ||| (n >>> 18), 128 ||| (n >>> 12 &&& 63), 128 ||| (n >>> 6 &&& 63), 128 ||| (n &&& 63)]

def strBytes (s : String) : List Nat := s.data.flatMap utf8Bytes

/-- model of `hmac.new(key, msg, sha256).digest()` -/
def hmacSha256 (key msg : List Nat) : List Nat :=
  let k1 := if key.length > 64 then sha256 key else key
  let k2 := k1 ++ List.replicate (64 - k1.length) 0
  let ipadKey := k2.map (fun b => b ^^^ 54)
  let opadKey := k2.map (fun b => b ^^^ 92)
  sha256 (opadKey ++ sha256 (ipadKey ++ msg))

/-! ## Webhook signature validation (`validate_request`, app.py lines 134-140)

The request's raw body is a byte list; the `X-Dropbox-Signature` header is
`none` when absent.  The source compares the header with a plain string
equality against the lowercase hex digest. -/

def validate_request (secret : String) (rawBody : List Nat) (signature : Option String) : Bool :=
  signature == some (hexdigest (hmacSha256 (strBytes secret) rawBody))

/-- lowercase a single ASCII character -/
def asciiLower (c : Char) : Char :=
  if 65 ≤ c.toNat ∧ c.toNat ≤ 90 then Char.ofNat (c.toNat + 32) else c

/-- case-insensitive string comparison -/
def eqCaseInsensitive (s t : String) : Bool :=
  s.data.map asciiLower == t.data.map asciiLower

/-- Modelled from the spec: the signature acceptance predicate as the claim
words it — accept iff the hex-encoded HMAC-SHA256 of the raw body under the
shared secret equals the provided signature, case-insensitively.  This is
the comparison point for the code's `validate_request`. -/
def verifySignatureSpec (secret : String) (rawBody : List Nat) (sig : String) : Bool :=
  eqCaseInsensitive sig (hexdigest (hmacSha256 (strBytes secret) rawBody))

/-! ## JSON values and the webhook dispatcher (`webhook`, app.py lines 151-165) -/

inductive Json where
  | null
  | bool (b : Bool)
  | num (n : Int)
  | str (s : String)
  | arr (items : List Json)
  | obj (fields : List (String × Json))

def lookupField : List (String × Json) → String → Option Json
  | [], _ => none
  | (k, v) :: rest, key => if k = key then some v else lookupField rest key

/-- Python `value[key]`: a dict lookup.  `none` models the unhandled
`KeyError` (key absent) or `TypeError` (value not a dict). -/
def jsonLookup (j : Json) (key : String) : Option Json :=
  match j with
  | .obj fields => lookupField fields key
  | _ => none

/-- Python `for x in value`: iterating a list yields its items, a string its
characters, a dict its keys; anything else raises `TypeError` (`none`). -/
def iterElems : Json → Option (List Json)
  | .arr xs => some xs
  | .str s => some (s.data.map (fun c => Json.str (String.mk [c])))
  | .obj fields => some (fields.map (fun f => Json.str f.1))
  | _ => none

/-- Outcome of a POST to `/webhook`.  `forbidden` is the `abort(403)` path;
`accepted` is the `return ''` path (HTTP 200, empty body) and carries the
list of user identifiers for which a background `process_user` thread was
started, in spawn order (fire-and-forget: nothing waits on them);
`crashed` is an unhandled exception escaping the handler. -/
inductive WebhookResult where
  | forbidden
  | accepted (scheduled : List Json)
  | crashed

def scheduledOf : WebhookResult → List Json
  | .accepted us => us
  | _ => []

/-- the POST `/webhook` handler: validate the signature, then spawn one
`process_user` thread per entry of `request.json['delta']['users']` -/
def webhook (secret : String) (rawBody : List Nat) (body : Json) (signature : Option String) :
    WebhookResult :=
  if validate_request secret rawBody signature = false then .forbidden
  else
    match jsonLookup body "delta" with
    | none => .crashed
    | some d =>
      match jsonLookup d "users" with
      | none => .crashed
      | some users =>
        match iterElems users with
        | none => .crashed
        | some us => .accepted us

/-! ## Data model of the sync engine (`process_user`, app.py lines 68-116) -/

/-- file metadata as returned inside a delta entry; the engine only reads
the directory flag -/
structure FileMetadata where
  is_dir : Bool
deriving DecidableEq

/-- one `(path, metadata)` pair of `result['entries']`; `metadata = none`
signals a deletion -/
structure ChangeEntry where
  path : String
  metadata : Option FileMetadata
deriving DecidableEq

/-- one page of `client.delta(cursor)` -/
structure DeltaResult where
  entries : List ChangeEntry
  cursor : String
  has_more : Bool
deriving DecidableEq

/-- one observable storage interaction of a run.  `readToken`/`readCursor`
are the two redis `hget` calls; `deltaCall`, `getFile`, `putFile` (with its
`overwrite` flag) and `shareCall` are Dropbox client calls; `setCursor` is
the redis `hset` on the cursors map. -/
inductive Event where
  | readToken (uid : String) (result : Option String)
  | readCursor (uid : String) (result : Option String)
  | deltaCall (cursorArg : Option String)
  | getFile (path : String)
  | putFile (path : String) (content : String) (overwrite : Bool)
  | shareCall (path : String)
  | setCursor (uid : String) (cursor : String)
deriving DecidableEq

/-- the external collaborators, as oracles.  `none` (or `false` for `put`)
models the call raising an exception.  `delta` is the Dropbox `/delta`
endpoint, `readFile` is `get_file_and_metadata` + `.read().decode()`,
`put` is `put_file`, `share` is `share(...).get('url')`, `render` is the
`markdown(...)` renderer. -/
structure World where
  tokens : String → Option String
  cursors : String → Option String
  delta : Option String → Option DeltaResult
  readFile : String → Option String
  put : String → String → Bool
  share : String → Option String
  render : String → Option String

inductive RunError where
  | missingCredential
  | upstream
deriving DecidableEq

inductive RunOutcome where
  | ok
  | failed (e : RunError)
  | outOfFuel
deriving DecidableEq

/-- result of a run: the trace of storage interactions, the outcome, and
the final state of the cursors map -/
structure RunResult where
  events : List Event
  outcome : RunOutcome
  store : String → Option String

/-! ### Text helpers used by the entry-processing body -/

/-- Python `md.split('\n')[0]` -/
def firstLine (s : String) : String :=
  String.mk (s.data.takeWhile (fun c => c ≠ '\n'))

/-- Python `s.endswith(t)` -/
def strEndsWith (s t : String) : Bool := t.data.isSuffixOf s.data

/-- Python `s.split(sep)` for a one-character separator, on char lists -/
def splitCharList (c : Char) : List Char → List (List Char)
  | [] => [[]]
  | x :: xs =>
    let rest := splitCharList c xs
    if x = c then [] :: rest
    else
      match rest with
      | [] => [[x]]
      | r :: rs => (x :: r) :: rs

def splitStr (c : Char) (s : String) : List String :=
  (splitCharList c s.data).map String.mk

/-- Python `path[:-3]` followed by `+ '.html'` -/
def htmlNameOf (path : String) : String :=
  String.mk (path.data.take (path.data.length - 3)) ++ ".html"

def hexUpperChar (n : Nat) : Char := "0123456789ABCDEF".data.getD n '0'

/-- bytes `urllib.parse.quote` leaves unescaped: ASCII letters, digits,
underscore, dot, hyphen, tilde, and the default safe character slash -/
def quoteSafeByte (b : Nat) : Bool :=
  (65 ≤ b && b ≤ 90) || (97 ≤ b && b ≤ 122) || (48 ≤ b && b ≤ 57) ||
    b == 95 || b == 46 || b == 45 || b == 126 || b == 47

def quoteByte (b : Nat) : List Char :=
  if quoteSafeByte b then [Char.ofNat b]
  else ['%', hexUpperChar (b / 16 % 16), hexUpperChar (b % 16)]

/-- Python `urllib.parse.quote` (percent-encoding of the UTF-8 bytes) -/
def urlQuote (s : String) : String :=
  String.mk ((strBytes s).flatMap quoteByte)

/-- the literal annotation-marker line of app.py line 100 -/
def MARKER : String := "<!-- Published file url:"

/-! ### The entry-processing body and the batch loop -/

/-- the filter of app.py lines 86-89: deleted files, folders and
non-Markdown paths are skipped -/
def skipEntry (path : String) (metadata : Option FileMetadata) : Bool :=
  match metadata with
  | none => true
  | some m => m.is_dir || !(strEndsWith path ".md")

/-- the loop body of app.py lines 83-109 for a single `(path, metadata)`
entry: the events it emits, and whether it completed without an exception -/
def processEntry (w : World) (path : String) (metadata : Option FileMetadata) :
    List Event × Bool :=
  if skipEntry path metadata then ([], true)
  else
    match w.readFile path with
    | none => ([.getFile path], false)
    | some md =>
      match w.render md with
      | none => ([.getFile path], false)
      | some html =>
        let html_name := htmlNameOf path
        if w.put html_name html = false then
          ([.getFile path, .putFile html_name html true], false)
        else
          if firstLine md != MARKER then
            match w.share html_name with
            | none => ([.getFile path, .putFile html_name html true, .shareCall html_name], false)
            | some share_url =>
              match (splitStr '/' share_url).get? 4 with
              | none =>
                ([.getFile path, .putFile html_name html true, .shareCall html_name], false)
              | some file_key =>
                let url_name := urlQuote html_name
                let url_comment := "<!-- Published file url:\n" ++
                  "https://dl.dropboxusercontent.com/s/" ++ file_key ++ url_name ++ "\n-->\n"
                let md2 := url_comment ++ md
                if w.put path md2 = false then
                  ([.getFile path, .putFile html_name html true, .shareCall html_name,
                    .putFile path md2 true], false)
                else
                  ([.getFile path, .putFile html_name html true, .shareCall html_name,
                    .putFile path md2 true], true)
          else ([.getFile path, .putFile html_name html true], true)

/-- the `for path, metadata in result['entries']` loop; an exception in one
entry aborts the whole run -/
def processEntries (w : World) : List ChangeEntry → List Event × Bool
  | [] => ([], true)
  | e :: rest =>
    match processEntry w e.path e.metadata with
    | (evs, false) => (evs, false)
    | (evs, true) =>
      match processEntries w rest with
      | (evs2, ok2) => (evs ++ evs2, ok2)

/-- the `while has_more` loop of app.py lines 80-116.  `cursor` is the local
variable (read from the store once, then always the latest batch's value);
`store` is the current state of the redis cursors map. -/
def runLoop (w : World) (uid : String) :
    Nat → Option String → (String → Option String) → RunResult
  | 0, _, store => ⟨[], .outOfFuel, store⟩
  | fuel + 1, cursor, store =>
    match w.delta cursor with
    | none => ⟨[.deltaCall cursor], .failed .upstream, store⟩
    | some result =>
      match processEntries w result.entries with
      | (evs, false) => ⟨.deltaCall cursor :: evs, .failed .upstream, store⟩
      | (evs, true) =>
        let store2 := fun u => if u = uid then some result.cursor else store u
        let batchEvs := .deltaCall cursor :: evs ++ [.setCursor uid result.cursor]
        if result.has_more then
          let r := runLoop w uid fuel (some result.cursor) store2
          ⟨batchEvs ++ r.events, r.outcome, r.store⟩
        else
          ⟨batchEvs, .ok, store2⟩

/-- `process_user(uid)` of app.py lines 68-116: read the token and cursor
(each once), fail when no credential is stored (`DropboxClient(None)`
raises before any client call), else drive the batch loop -/
def process_user (w : World) (fuel : Nat) (uid : String) : RunResult :=
  let token := w.tokens uid
  let cursor := w.cursors uid
  let readEvs : List Event := [.readToken uid token, .readCursor uid cursor]
  match token with
  | none => ⟨readEvs, .failed .missingCredential, w.cursors⟩
  | some _ =>
    let r := runLoop w uid fuel cursor w.cursors
    ⟨readEvs ++ r.events, r.outcome, r.store⟩

/-! ### Trace observations used by the claims -/

/-- cursor arguments of the `delta` calls of a trace, in order -/
def deltaArgs (evs : List Event) : List (Option String) :=
  evs.filterMap (fun e => match e with | .deltaCall c => some c | _ => none)

/-- cursor values persisted by a trace, in order -/
def writeVals (evs : List Event) : List String :=
  evs.filterMap (fun e => match e with | .setCursor _ c => some c | _ => none)

def isBatchEv : Event → Bool
  | .deltaCall _ => true
  | .setCursor _ _ => true
  | _ => false

/-- the subtrace of batch landmarks: `delta` calls and cursor writes -/
def batchTrace (evs : List Event) : List Event := evs.filter isBatchEv

def isEntryEv : Event → Bool
  | .getFile _ => true
  | .putFile _ _ _ => true
  | .shareCall _ => true
  | _ => false

def isShareEv : Event → Bool
  | .shareCall _ => true
  | _ => false

def isReadEv : Event → Bool
  | .readToken _ _ => true
  | .readCursor _ _ => true
  | _ => false

/-- a `putFile` to the given path -/
def isWriteTo (p : String) : Event → Bool
  | .putFile q _ _ => q == p
  | _ => false

/-- replay of the cursor writes of a trace over an initial cursors map -/
def applyCursorWrites (init : String → Option String) : List Event → String → Option String
  | [] => init
  | e :: rest =>
    match e with
    | .setCursor u c => applyCursorWrites (fun x => if x = u then some c else init x) rest
    | _ => applyCursorWrites init rest

/-- the last value a trace writes for the cursor key `u`, if any -/
def lastWriteFor (u : String) : List Event → Option String
  | [] => none
  | .setCursor v c :: rest =>
    (match lastWriteFor u rest with
     | some c2 => some c2
     | none => if v = u then some c else none)
  | _ :: rest => lastWriteFor u rest

/-- model of combining two delta pages: used to state what an unchanged
file set looks like -/
def zipBatchEvents (uid : String) (args : List (Option String)) (writes : List String) :
    List Event :=
  (args.zip writes).flatMap (fun p => [Event.deltaCall p.1, Event.setCursor uid p.2])

/-! ### Concrete worlds used to instantiate the theorems -/

/-- a healthy world: one Markdown change for user u1, then a second batch
of only skippable entries -/
def wDemo : World :=
  { tokens := fun u => if u = "u1" then some "tok" else none
    cursors := fun _ => none
    delta := fun c =>
      match c with
      | none => some ⟨[⟨"/notes.md", some ⟨false⟩⟩], "c1", true⟩
      | some "c1" =>
          some ⟨[⟨"/pics", some ⟨true⟩⟩, ⟨"/gone.md", none⟩, ⟨"/a.txt", some ⟨false⟩⟩],
            "c2", false⟩
      | some _ => some ⟨[], "c3", false⟩
    readFile := fun p => if p = "/notes.md" then some "# Hello" else none
    put := fun _ _ => true
    share := fun _ => some "https://www.dropbox.com/s/abc123/notes.html"
    render := fun _ => some "<h1>Hello</h1>" }

/-- a world whose only Markdown file is already annotated and whose stored
cursor is up to date: the delta page at the stored cursor is empty -/
def wAnn : World :=
  { tokens := fun u => if u = "u1" then some "tok" else none
    cursors := fun u => if u = "u1" then some "c9" else none
    delta := fun c =>
      match c with
      | some "c9" => some ⟨[], "c9", false⟩
      | _ => some ⟨[⟨"/notes.md", some ⟨false⟩⟩], "c9", true⟩
    readFile := fun p =>
      if p = "/notes.md" then some "<!-- Published file url:
https://x
-->
# Hello" else none
    put := fun _ _ => true
    share := fun _ => some "https://www.dropbox.com/s/abc123/notes.html"
    render := fun _ => some "<h1>Hello</h1>" }

/-- a world whose second batch aborts: the file read of its only entry
raises -/
def wFail : World :=
  { tokens := fun u => if u = "u1" then some "tok" else none
    cursors := fun _ => none
    delta := fun c =>
      match c with
      | none => some ⟨[⟨"/notes.md", some ⟨false⟩⟩], "c1", true⟩
      | some _ => some ⟨[⟨"/bad.md", some ⟨false⟩⟩], "c2", false⟩
    readFile := fun p => if p = "/notes.md" then some "# Hello" else none
    put := fun _ _ => true
    share := fun _ => some "https://www.dropbox.com/s/abc123/notes.html"
    render := fun _ => some "<h1>Hello</h1>" }

/-- a world with no stored credential for anybody -/
def wNoTok : World :=
  { tokens := fun _ => none
    cursors := fun u => if u = "u1" then some "c0" else none
    delta := fun _ => none
    readFile := fun _ => none
    put := fun _ _ => false
    share := fun _ => none
    render := fun _ => none }

/-! ## Supporting lemmas -/

theorem processEntry_skip (w : World) (path : String) (m : Option FileMetadata)
    (h : skipEntry path m = true) : processEntry w path m = ([], true) := by
  simp [processEntry, h]

theorem processEntry_all_entryEv (w : World) (path : String) (m : Option FileMetadata) :
    (processEntry w path m).1.all isEntryEv = true := by
  simp only [processEntry]
  repeat' split
  all_goals rfl

theorem processEntry_kinds (w : World) (path : String) (m : Option FileMetadata) :
    ∀ e ∈ (processEntry w path m).1, isEntryEv e = true :=
  List.all_eq_true.mp (processEntry_all_entryEv w path m)

theorem processEntries_kinds (w : World) (entries : List ChangeEntry) :
    ∀ e ∈ (processEntries w entries).1, isEntryEv e = true := by
  induction entries with
  | nil => intro e he; simp [processEntries] at he
  | cons a rest ih =>
    intro e he
    unfold processEntries at he
    rcases h1 : processEntry w a.path a.metadata with ⟨evs, ok⟩
    rcases ok with _ | _
    · rw [h1] at he
      simp at he
      exact processEntry_kinds w a.path a.metadata e (by rw [h1]; exact he)
    · rw [h1] at he
      rcases h2 : processEntries w rest with ⟨evs2, ok2⟩
      rw [h2] at he
      simp at he
      rcases he with h | h
      · exact processEntry_kinds w a.path a.metadata e (by rw [h1]; exact h)
      · exact ih e (by rw [h2]; exact h)

theorem entryEv_deltaArgs (evs : List Event) (h : ∀ e ∈ evs, isEntryEv e = true) :
    deltaArgs evs = [] := by
  induction evs with
  | nil => rfl
  | cons a rest ih =>
    have ha := h a (by simp)
    have hr := ih (fun e he => h e (by simp [he]))
    cases a <;> simp [isEntryEv] at ha <;> simpa [deltaArgs, List.filterMap_cons] using hr

theorem entryEv_writeVals (evs : List Event) (h : ∀ e ∈ evs, isEntryEv e = true) :
    writeVals evs = [] := by
  induction evs with
  | nil => rfl
  | cons a rest ih =>
    have ha := h a (by simp)
    have hr := ih (fun e he => h e (by simp [he]))
    cases a <;> simp [isEntryEv] at ha <;> simpa [writeVals, List.filterMap_cons] using hr

theorem entryEv_batchTrace (evs : List Event) (h : ∀ e ∈ evs, isEntryEv e = true) :
    batchTrace evs = [] := by
  induction evs with
  | nil => rfl
  | cons a rest ih =>
    have ha := h a (by simp)
    have hr := ih (fun e he => h e (by simp [he]))
    cases a <;> simp [isEntryEv] at ha <;> simpa [batchTrace, isBatchEv, List.filter_cons] using hr

theorem entryEv_not_read (e : Event) (h : isEntryEv e = true) : isReadEv e = false := by
  cases e <;> simp [isEntryEv, isReadEv] at h ⊢

theorem entryEv_lastWriteFor (u : String) (evs : List Event)
    (h : ∀ e ∈ evs, isEntryEv e = true) : lastWriteFor u evs = none := by
  induction evs with
  | nil => rfl
  | cons a rest ih =>
    have ha := h a (by simp)
    have hr := ih (fun e he => h e (by simp [he]))
    cases a <;> simp [isEntryEv] at ha <;> simpa [lastWriteFor] using hr

theorem deltaArgs_append (l1 l2 : List Event) :
    deltaArgs (l1 ++ l2) = deltaArgs l1 ++ deltaArgs l2 :=
  List.filterMap_append l1 l2 _

theorem writeVals_append (l1 l2 : List Event) :
    writeVals (l1 ++ l2) = writeVals l1 ++ writeVals l2 :=
  List.filterMap_append l1 l2 _

theorem batchTrace_append (l1 l2 : List Event) :
    batchTrace (l1 ++ l2) = batchTrace l1 ++ batchTrace l2 :=
  List.filter_append l1 l2

theorem lastWriteFor_append (u : String) (l1 l2 : List Event) :
    lastWriteFor u (l1 ++ l2) =
      (match lastWriteFor u l2 with
       | some c => some c
       | none => lastWriteFor u l1) := by
  induction l1 with
  | nil =>
    simp only [List.nil_append]
    cases h : lastWriteFor u l2 <;> simp [lastWriteFor]
  | cons a rest ih =>
    cases a <;>
      simp only [List.cons_append, lastWriteFor, List.append_eq, ih] <;>
      cases h2 : lastWriteFor u l2 <;> cases hr : lastWriteFor u rest <;> rfl

theorem applyCursorWrites_spec (init : String → Option String) (evs : List Event) (u : String) :
    applyCursorWrites init evs u =
      (match lastWriteFor u evs with
       | some c => some c
       | none => init u) := by
  induction evs generalizing init with
  | nil => rfl
  | cons a rest ih =>
    cases a with
    | setCursor v c =>
      simp only [applyCursorWrites, lastWriteFor, ih]
      cases lastWriteFor u rest with
      | some c2 => rfl
      | none =>
        by_cases hv : v = u
        · simp [hv]
        · rw [if_neg (fun h => hv (Eq.symm h)), if_neg hv]
    | readToken a b => simpa [applyCursorWrites, lastWriteFor] using ih init
    | readCursor a b => simpa [applyCursorWrites, lastWriteFor] using ih init
    | deltaCall a => simpa [applyCursorWrites, lastWriteFor] using ih init
    | getFile a => simpa [applyCursorWrites, lastWriteFor] using ih init
    | putFile a b c => simpa [applyCursorWrites, lastWriteFor] using ih init
    | shareCall a => simpa [applyCursorWrites, lastWriteFor] using ih init

/-- relational mirror of one execution of the `while has_more` loop,
indexed by the cursor value the iteration starts from.  `runLoop_trace`
below proves every run's trace inhabits it; the claim theorems then follow
by induction on this relation. -/
inductive LoopTrace (w : World) (uid : String) : Option String → List Event → RunOutcome → Prop where
  | fuelOut (c : Option String) : LoopTrace w uid c [] .outOfFuel
  | deltaFail (c : Option String) (hd : w.delta c = none) :
      LoopTrace w uid c [.deltaCall c] (.failed .upstream)
  | entriesFail (c : Option String) (res : DeltaResult) (evs : List Event)
      (hd : w.delta c = some res) (he : processEntries w res.entries = (evs, false)) :
      LoopTrace w uid c (.deltaCall c :: evs) (.failed .upstream)
  | lastBatch (c : Option String) (res : DeltaResult) (evs : List Event)
      (hd : w.delta c = some res) (he : processEntries w res.entries = (evs, true))
      (hm : res.has_more = false) :
      LoopTrace w uid c (.deltaCall c :: evs ++ [.setCursor uid res.cursor]) .ok
  | moreBatch (c : Option String) (res : DeltaResult) (evs evs2 : List Event) (out : RunOutcome)
      (hd : w.delta c = some res) (he : processEntries w res.entries = (evs, true))
      (hm : res.has_more = true)
      (ht : LoopTrace w uid (some res.cursor) evs2 out) :
      LoopTrace w uid c ((.deltaCall c :: evs ++ [.setCursor uid res.cursor]) ++ evs2) out

theorem runLoop_trace (w : World) (uid : String) (fuel : Nat) (c : Option String)
    (store : String → Option String) :
    LoopTrace w uid c (runLoop w uid fuel c store).events (runLoop w uid fuel c store).outcome := by
  induction fuel generalizing c store with
  | zero => exact .fuelOut c
  | succ fuel ih =>
    rcases hd : w.delta c with _ | res
    · simpa [runLoop, hd] using LoopTrace.deltaFail c hd
    · rcases hpe : processEntries w res.entries with ⟨evs, ok⟩
      rcases ok with _ | _
      · simpa [runLoop, hd, hpe] using LoopTrace.entriesFail c res evs hd hpe
      · rcases hm : res.has_more with _ | _
        · simpa [runLoop, hd, hpe, hm] using LoopTrace.lastBatch c res evs hd hpe hm
        · simpa [runLoop, hd, hpe, hm] using
            LoopTrace.moreBatch c res evs _ _ hd hpe hm (ih (some res.cursor) _)

theorem runLoop_store (w : World) (uid : String) (fuel : Nat) (c : Option String)
    (store : String → Option String) (u : String) :
    (runLoop w uid fuel c store).store u =
      applyCursorWrites store (runLoop w uid fuel c store).events u := by
  induction fuel generalizing c store with
  | zero => simp [runLoop, applyCursorWrites]
  | succ fuel ih =>
    rcases hd : w.delta c with _ | res
    · simp [runLoop, hd, applyCursorWrites]
    · rcases hpe : processEntries w res.entries with ⟨evs, ok⟩
      have hkinds : ∀ e ∈ evs, isEntryEv e = true := by
        intro e he
        exact processEntries_kinds w res.entries e (by rw [hpe]; exact he)
      have hlw : lastWriteFor u evs = none := entryEv_lastWriteFor u evs hkinds
      rcases ok with _ | _
      · simp only [runLoop, hd, hpe]
        rw [applyCursorWrites_spec]
        simp [lastWriteFor, hlw]
      · rcases hm : res.has_more with _ | _
        · simp only [runLoop, hd, hpe, hm, Bool.false_eq_true, if_false, ite_false]
          rw [applyCursorWrites_spec]
          rw [show Event.deltaCall c :: evs ++ [Event.setCursor uid res.cursor] =
              (Event.deltaCall c :: evs) ++ [Event.setCursor uid res.cursor] from by simp]
          rw [lastWriteFor_append]
          simp only [lastWriteFor, hlw]
          by_cases hu : uid = u
          · simp [hu]
          · rw [if_neg hu, if_neg (fun h => hu (Eq.symm h))]
        · simp only [runLoop, hd, hpe, hm, if_true, ite_true]
          rw [ih]
          rw [applyCursorWrites_spec, applyCursorWrites_spec]
          have hsplit : ∀ l : List Event,
              (Event.deltaCall c :: evs ++ [Event.setCursor uid res.cursor]) ++ l =
              (Event.deltaCall c :: evs) ++ ([Event.setCursor uid res.cursor] ++ l) := by
            intro l
            simp
          rw [hsplit]
          rw [lastWriteFor_append, lastWriteFor_append]
          simp only [lastWriteFor, hlw]
          cases hrl : lastWriteFor u (runLoop w uid fuel (some res.cursor)
              (fun x => if x = uid then some res.cursor else store x)).events
          · simp only []
            by_cases hu : uid = u
            · simp [hu]
            · rw [if_neg hu, if_neg (fun h => hu (Eq.symm h))]
          · rfl

@[simp] theorem deltaArgs_nil : deltaArgs [] = [] := rfl

@[simp] theorem deltaArgs_cons_delta (c : Option String) (l : List Event) :
    deltaArgs (Event.deltaCall c :: l) = c :: deltaArgs l := by
  simp [deltaArgs, List.filterMap_cons]

@[simp] theorem deltaArgs_cons_set (u x : String) (l : List Event) :
    deltaArgs (Event.setCursor u x :: l) = deltaArgs l := by
  simp [deltaArgs, List.filterMap_cons]

@[simp] theorem writeVals_nil : writeVals [] = [] := rfl

@[simp] theorem writeVals_cons_delta (c : Option String) (l : List Event) :
    writeVals (Event.deltaCall c :: l) = writeVals l := by
  simp [writeVals, List.filterMap_cons]

@[simp] theorem writeVals_cons_set (u x : String) (l : List Event) :
    writeVals (Event.setCursor u x :: l) = x :: writeVals l := by
  simp [writeVals, List.filterMap_cons]

@[simp] theorem batchTrace_nil : batchTrace [] = [] := rfl

@[simp] theorem batchTrace_cons_delta (c : Option String) (l : List Event) :
    batchTrace (Event.deltaCall c :: l) = Event.deltaCall c :: batchTrace l := by
  simp [batchTrace, isBatchEv, List.filter_cons]

@[simp] theorem batchTrace_cons_set (u x : String) (l : List Event) :
    batchTrace (Event.setCursor u x :: l) = Event.setCursor u x :: batchTrace l := by
  simp [batchTrace, isBatchEv, List.filter_cons]

/-- no event of the loop body is a store read: the token and the cursor are
only read before the loop starts -/
theorem loopTrace_noRead (w : World) (uid : String) (c : Option String) (evs : List Event)
    (out : RunOutcome) (h : LoopTrace w uid c evs out) :
    ∀ e ∈ evs, isReadEv e = false := by
  induction h with
  | fuelOut c => intro e he; simp at he
  | deltaFail c hd =>
    intro e he
    simp at he
    simp [he, isReadEv]
  | entriesFail c res evs hd he =>
    intro e hme
    rcases List.mem_cons.mp hme with rfl | hm
    · rfl
    · exact entryEv_not_read e (processEntries_kinds w res.entries e (by rw [he]; exact hm))
  | lastBatch c res evs hd he hm =>
    intro e hme
    rcases List.mem_cons.mp hme with rfl | hm2
    · rfl
    · rcases List.mem_append.mp hm2 with hm3 | hm3
      · exact entryEv_not_read e (processEntries_kinds w res.entries e (by rw [he]; exact hm3))
      · simp at hm3
        simp [hm3, isReadEv]
  | moreBatch c res evs evs2 out hd he hm ht ih =>
    intro e hme
    rcases List.mem_append.mp hme with hm2 | hm2
    · rcases List.mem_cons.mp hm2 with rfl | hm3
      · rfl
      · rcases List.mem_append.mp hm3 with hm4 | hm4
        · exact entryEv_not_read e (processEntries_kinds w res.entries e (by rw [he]; exact hm4))
        · simp at hm4
          simp [hm4, isReadEv]
    · exact ih e hm2

/-- every cursor write of the loop is for the user being processed -/
theorem loopTrace_setUser (w : World) (uid : String) (c : Option String) (evs : List Event)
    (out : RunOutcome) (h : LoopTrace w uid c evs out) :
    ∀ u x, Event.setCursor u x ∈ evs → u = uid := by
  induction h with
  | fuelOut c => intro u x he; simp at he
  | deltaFail c hd => intro u x he; simp at he
  | entriesFail c res evs hd he =>
    intro u x hme
    rcases List.mem_cons.mp hme with h1 | hm
    · exact absurd h1 (by simp)
    · have := processEntries_kinds w res.entries _ (by rw [he]; exact hm)
      simp [isEntryEv] at this
  | lastBatch c res evs hd he hm =>
    intro u x hme
    rcases List.mem_cons.mp hme with h1 | hm2
    · exact absurd h1 (by simp)
    · rcases List.mem_append.mp hm2 with hm3 | hm3
      · have := processEntries_kinds w res.entries _ (by rw [he]; exact hm3)
        simp [isEntryEv] at this
      · simp at hm3
        exact hm3.1
  | moreBatch c res evs evs2 out hd he hm ht ih =>
    intro u x hme
    rcases List.mem_append.mp hme with hm2 | hm2
    · rcases List.mem_cons.mp hm2 with h1 | hm3
      · exact absurd h1 (by simp)
      · rcases List.mem_append.mp hm3 with hm4 | hm4
        · have := processEntries_kinds w res.entries _ (by rw [he]; exact hm4)
          simp [isEntryEv] at this
        · simp at hm4
          exact hm4.1
    · exact ih u x hm2

/-- the first `delta` call of a loop trace uses the cursor value the loop
started from -/
theorem loopTrace_head (w : World) (uid : String) (c : Option String) (evs : List Event)
    (out : RunOutcome) (h : LoopTrace w uid c evs out) :
    deltaArgs evs = [] ∨ (deltaArgs evs).get? 0 = some c := by
  induction h with
  | fuelOut c => exact Or.inl rfl
  | deltaFail c hd => exact Or.inr rfl
  | entriesFail c res evs hd he => exact Or.inr (by simp)
  | lastBatch c res evs hd he hm => exact Or.inr (by simp)
  | moreBatch c res evs evs2 out hd he hm ht ih => exact Or.inr (by simp)

theorem loopTrace_lengths (w : World) (uid : String) (c : Option String) (evs : List Event)
    (out : RunOutcome) (h : LoopTrace w uid c evs out) :
    (out = .ok → (deltaArgs evs).length = (writeVals evs).length ∧ writeVals evs ≠ []) ∧
    (out = .failed RunError.upstream →
      (deltaArgs evs).length = (writeVals evs).length + 1) ∧
    (out = .outOfFuel → (deltaArgs evs).length = (writeVals evs).length) := by
  induction h with
  | fuelOut c => exact ⟨nofun, nofun, fun _ => rfl⟩
  | deltaFail c hd => exact ⟨nofun, fun _ => by simp, nofun⟩
  | entriesFail c res evs hd he =>
    have hk := fun e hm => processEntries_kinds w res.entries e (by rw [he]; exact hm)
    refine ⟨nofun, fun _ => ?_, nofun⟩
    simp [deltaArgs_append, writeVals_append, entryEv_deltaArgs evs hk, entryEv_writeVals evs hk]
  | lastBatch c res evs hd he hm =>
    have hk := fun e hm => processEntries_kinds w res.entries e (by rw [he]; exact hm)
    refine ⟨fun _ => ?_, nofun, nofun⟩
    simp [deltaArgs_append, writeVals_append, entryEv_deltaArgs evs hk, entryEv_writeVals evs hk]
  | moreBatch c res evs evs2 out hd he hm ht ih =>
    have hk := fun e hm => processEntries_kinds w res.entries e (by rw [he]; exact hm)
    have hargs : deltaArgs ((Event.deltaCall c :: evs ++ [Event.setCursor uid res.cursor]) ++ evs2)
        = c :: deltaArgs evs2 := by
      simp [deltaArgs_append, entryEv_deltaArgs evs hk]
    have hwr : writeVals ((Event.deltaCall c :: evs ++ [Event.setCursor uid res.cursor]) ++ evs2)
        = res.cursor :: writeVals evs2 := by
      simp [writeVals_append, entryEv_writeVals evs hk]
    refine ⟨fun hout => ?_, fun hout => ?_, fun hout => ?_⟩
    · have hl := ih.1 hout
      rw [hargs, hwr]
      simp [hl.1]
    · have hl := ih.2.1 hout
      rw [hargs, hwr]
      simp [hl]
    · have hl := ih.2.2 hout
      rw [hargs, hwr]
      simp [hl]

/-- each persisted cursor value is exactly the cursor returned by the
`delta` call of the same batch, and the following `delta` call (if any) is
made with exactly that value -/
theorem loopTrace_chain (w : World) (uid : String) (c : Option String) (evs : List Event)
    (out : RunOutcome) (h : LoopTrace w uid c evs out) :
    ∀ i v, (writeVals evs).get? i = some v →
      ∃ a res, (deltaArgs evs).get? i = some a ∧ w.delta a = some res ∧ res.cursor = v ∧
        ((deltaArgs evs).get? (i + 1) = none ∨
          (deltaArgs evs).get? (i + 1) = some (some v)) := by
  induction h with
  | fuelOut c => intro i v hv; simp at hv
  | deltaFail c hd => intro i v hv; simp at hv
  | entriesFail c res evs hd he =>
    have hk := fun e hm => processEntries_kinds w res.entries e (by rw [he]; exact hm)
    intro i v hv
    rw [show Event.deltaCall c :: evs = [Event.deltaCall c] ++ evs from rfl,
      writeVals_append, entryEv_writeVals evs hk] at hv
    simp at hv
  | lastBatch c res evs hd he hm =>
    have hk := fun e hm2 => processEntries_kinds w res.entries e (by rw [he]; exact hm2)
    have hargs : deltaArgs (Event.deltaCall c :: evs ++ [Event.setCursor uid res.cursor])
        = [c] := by
      simp [deltaArgs_append, entryEv_deltaArgs evs hk]
    have hwr : writeVals (Event.deltaCall c :: evs ++ [Event.setCursor uid res.cursor])
        = [res.cursor] := by
      simp [writeVals_append, entryEv_writeVals evs hk]
    intro i v hv
    rw [hwr] at hv
    rw [hargs]
    rcases i with _ | i
    · simp at hv
      exact ⟨c, res, rfl, hd, hv, Or.inl rfl⟩
    · simp at hv
  | moreBatch c res evs evs2 out hd he hm ht ih =>
    have hk := fun e hm2 => processEntries_kinds w res.entries e (by rw [he]; exact hm2)
    have hargs : deltaArgs ((Event.deltaCall c :: evs ++ [Event.setCursor uid res.cursor]) ++ evs2)
        = c :: deltaArgs evs2 := by
      simp [deltaArgs_append, entryEv_deltaArgs evs hk]
    have hwr : writeVals ((Event.deltaCall c :: evs ++ [Event.setCursor uid res.cursor]) ++ evs2)
        = res.cursor :: writeVals evs2 := by
      simp [writeVals_append, entryEv_writeVals evs hk]
    intro i v hv
    rw [hwr] at hv
    rw [hargs]
    rcases i with _ | i
    · simp at hv
      refine ⟨c, res, rfl, hd, hv, ?_⟩
      rcases loopTrace_head w uid _ _ _ ht with hnil | hhd
      · exact Or.inl (by simp [hnil])
      · subst hv
        exact Or.inr (by simpa using hhd)
    · simp only [List.get?_cons_succ] at hv ⊢
      exact ih i v hv

/-- the batch-landmark subtrace alternates strictly: each `delta` call is
followed by the write of that batch's cursor before the next `delta` call;
on failure the final `delta` call has no matching write -/
theorem loopTrace_zip (w : World) (uid : String) (c : Option String) (evs : List Event)
    (out : RunOutcome) (h : LoopTrace w uid c evs out) :
    (out = .ok ∨ out = .outOfFuel →
      batchTrace evs = zipBatchEvents uid (deltaArgs evs) (writeVals evs)) ∧
    (out = .failed RunError.upstream →
      ∃ aL, (deltaArgs evs).getLast? = some aL ∧
        batchTrace evs = zipBatchEvents uid (deltaArgs evs) (writeVals evs)
          ++ [Event.deltaCall aL]) := by
  induction h with
  | fuelOut c => exact ⟨fun _ => rfl, nofun⟩
  | deltaFail c hd =>
    constructor
    · intro hout
      rcases hout with h1 | h1
      · cases h1
      · cases h1
    · intro _
      refine ⟨c, by simp [deltaArgs], ?_⟩
      simp [zipBatchEvents, batchTrace, isBatchEv, deltaArgs, writeVals]
  | entriesFail c res evs hd he =>
    have hk := fun e hm => processEntries_kinds w res.entries e (by rw [he]; exact hm)
    constructor
    · intro hout
      rcases hout with h1 | h1
      · cases h1
      · cases h1
    · intro _
      refine ⟨c, ?_, ?_⟩
      · simp [deltaArgs_append, entryEv_deltaArgs evs hk]
      · rw [show Event.deltaCall c :: evs = [Event.deltaCall c] ++ evs from rfl,
          batchTrace_append, writeVals_append, deltaArgs_append,
          entryEv_batchTrace evs hk, entryEv_writeVals evs hk, entryEv_deltaArgs evs hk]
        simp [zipBatchEvents, batchTrace, isBatchEv, List.filter_cons]
  | lastBatch c res evs hd he hm =>
    have hk := fun e hm2 => processEntries_kinds w res.entries e (by rw [he]; exact hm2)
    refine ⟨fun _ => ?_, nofun⟩
    rw [show Event.deltaCall c :: evs ++ [Event.setCursor uid res.cursor]
        = [Event.deltaCall c] ++ evs ++ [Event.setCursor uid res.cursor] from by simp,
      batchTrace_append, batchTrace_append, writeVals_append, writeVals_append,
      deltaArgs_append, deltaArgs_append,
      entryEv_batchTrace evs hk, entryEv_writeVals evs hk, entryEv_deltaArgs evs hk]
    simp [zipBatchEvents, batchTrace, isBatchEv, List.filter_cons,
      deltaArgs, writeVals, List.filterMap_cons]
  | moreBatch c res evs evs2 out hd he hm ht ih =>
    have hk := fun e hm2 => processEntries_kinds w res.entries e (by rw [he]; exact hm2)
    have hargs : deltaArgs ((Event.deltaCall c :: evs ++ [Event.setCursor uid res.cursor]) ++ evs2)
        = c :: deltaArgs evs2 := by
      simp [deltaArgs_append, entryEv_deltaArgs evs hk]
    have hwr : writeVals ((Event.deltaCall c :: evs ++ [Event.setCursor uid res.cursor]) ++ evs2)
        = res.cursor :: writeVals evs2 := by
      simp [writeVals_append, entryEv_writeVals evs hk]
    have hbt : batchTrace ((Event.deltaCall c :: evs ++ [Event.setCursor uid res.cursor]) ++ evs2)
        = Event.deltaCall c :: Event.setCursor uid res.cursor :: batchTrace evs2 := by
      rw [show (Event.deltaCall c :: evs ++ [Event.setCursor uid res.cursor]) ++ evs2
          = [Event.deltaCall c] ++ evs ++ ([Event.setCursor uid res.cursor] ++ evs2) from by simp,
        batchTrace_append, batchTrace_append, entryEv_batchTrace evs hk]
      simp [batchTrace, isBatchEv, List.filter_cons]
    have hzip : ∀ args writes, zipBatchEvents uid (c :: args) (res.cursor :: writes)
        = Event.deltaCall c :: Event.setCursor uid res.cursor :: zipBatchEvents uid args writes := by
      intro args writes
      simp [zipBatchEvents]
    constructor
    · intro hout
      rw [hbt, hargs, hwr, hzip, ih.1 hout]
    · intro hout
      obtain ⟨aL, hal, hrest⟩ := ih.2 hout
      have hne : deltaArgs evs2 ≠ [] := by
        intro hnil
        rw [hnil] at hal
        simp at hal
      refine ⟨aL, ?_, ?_⟩
      · rw [hargs]
        rcases hdd : deltaArgs evs2 with _ | ⟨a2, rest2⟩
        · exact absurd hdd hne
        · rw [hdd] at hal
          rw [List.getLast?_cons_cons]
          exact hal
      · rw [hbt, hargs, hwr, hzip, hrest]
        simp

/-- a failed loop ends with a `delta` call followed only by entry events of
the aborted batch: nothing after the last `delta` call is a cursor write -/
theorem loopTrace_failShape (w : World) (uid : String) (c : Option String) (evs : List Event)
    (out : RunOutcome) (h : LoopTrace w uid c evs out) :
    out = .failed RunError.upstream →
      ∃ pre cL post, evs = pre ++ Event.deltaCall cL :: post ∧
        (∀ e ∈ post, isEntryEv e = true) := by
  induction h with
  | fuelOut c => exact nofun
  | deltaFail c hd =>
    exact fun _ => ⟨[], c, [], rfl, by intro e he; simp at he⟩
  | entriesFail c res evs hd he =>
    refine fun _ => ⟨[], c, evs, rfl, ?_⟩
    exact fun e hm => processEntries_kinds w res.entries e (by rw [he]; exact hm)
  | lastBatch c res evs hd he hm => exact nofun
  | moreBatch c res evs evs2 out hd he hm ht ih =>
    intro hout
    obtain ⟨pre, cL, post, heq, hpost⟩ := ih hout
    refine ⟨(Event.deltaCall c :: evs ++ [Event.setCursor uid res.cursor]) ++ pre, cL, post, ?_,
      hpost⟩
    rw [heq]
    simp

/-- when every cursor write of a trace is for `u`, the last write for `u`
is the last of `writeVals` -/
theorem lastWriteFor_eq_getLast (u : String) (evs : List Event)
    (h : ∀ v x, Event.setCursor v x ∈ evs → v = u) :
    lastWriteFor u evs = (writeVals evs).getLast? := by
  induction evs with
  | nil => rfl
  | cons a rest ih =>
    have hr := ih (fun v x hm => h v x (by simp [hm]))
    cases a with
    | setCursor v x =>
      have hv : v = u := h v x (by simp)
      subst hv
      rw [show writeVals (Event.setCursor v x :: rest) = x :: writeVals rest from by
        simp [writeVals, List.filterMap_cons]]
      rcases hw : writeVals rest with _ | ⟨y, t⟩
      · rw [hw] at hr
        simp only [lastWriteFor, hr]
        simp
      · rw [hw] at hr
        rw [List.getLast?_cons_cons]
        simp only [lastWriteFor, hr]
        cases hgl : (y :: t).getLast? with
        | none => simp at hgl
        | some z => rfl
    | readToken a b => simpa [lastWriteFor, writeVals, List.filterMap_cons] using hr
    | readCursor a b => simpa [lastWriteFor, writeVals, List.filterMap_cons] using hr
    | deltaCall a => simpa [lastWriteFor, writeVals, List.filterMap_cons] using hr
    | getFile a => simpa [lastWriteFor, writeVals, List.filterMap_cons] using hr
    | putFile a b c => simpa [lastWriteFor, writeVals, List.filterMap_cons] using hr
    | shareCall a => simpa [lastWriteFor, writeVals, List.filterMap_cons] using hr

/-- a non-skipped entry is a non-deleted, non-directory Markdown file -/
theorem skipEntry_false (path : String) (m : Option FileMetadata)
    (h : skipEntry path m = false) :
    ∃ mm, m = some mm ∧ mm.is_dir = false ∧ strEndsWith path ".md" = true := by
  rcases m with _ | mm
  · simp [skipEntry] at h
  · refine ⟨mm, rfl, ?_, ?_⟩
    · simp [skipEntry] at h
      exact h.1
    · simp [skipEntry] at h
      exact h.2

theorem strEndsWith_length (path : String) (h : strEndsWith path ".md" = true) :
    3 ≤ path.data.length := by
  have hs : ".md".data <:+ path.data := List.isSuffixOf_iff_suffix.mp h
  have := hs.length_le
  simpa using this

/-- the html sibling path is never the source path (the source ends in
`.md`, the sibling in `.html`) -/
theorem htmlNameOf_ne (path : String) (h : strEndsWith path ".md" = true) :
    htmlNameOf path ≠ path := by
  intro heq
  have hlen := strEndsWith_length path h
  have hdata : (htmlNameOf path).data = path.data := by rw [heq]
  have hlen2 : (htmlNameOf path).data.length = path.data.length - 3 + 5 := by
    simp [htmlNameOf, String.data_append]
    try omega
  rw [hdata] at hlen2
  omega

@[simp] theorem deltaArgs_cons_readToken (u : String) (t : Option String) (l : List Event) :
    deltaArgs (Event.readToken u t :: l) = deltaArgs l := rfl

@[simp] theorem deltaArgs_cons_readCursor (u : String) (t : Option String) (l : List Event) :
    deltaArgs (Event.readCursor u t :: l) = deltaArgs l := rfl

@[simp] theorem writeVals_cons_readToken (u : String) (t : Option String) (l : List Event) :
    writeVals (Event.readToken u t :: l) = writeVals l := rfl

@[simp] theorem writeVals_cons_readCursor (u : String) (t : Option String) (l : List Event) :
    writeVals (Event.readCursor u t :: l) = writeVals l := rfl

@[simp] theorem batchTrace_cons_readToken (u : String) (t : Option String) (l : List Event) :
    batchTrace (Event.readToken u t :: l) = batchTrace l := rfl

@[simp] theorem batchTrace_cons_readCursor (u : String) (t : Option String) (l : List Event) :
    batchTrace (Event.readCursor u t :: l) = batchTrace l := rfl

@[simp] theorem lastWriteFor_cons_readToken (v : String) (u : String) (t : Option String)
    (l : List Event) : lastWriteFor v (Event.readToken u t :: l) = lastWriteFor v l := rfl

@[simp] theorem lastWriteFor_cons_readCursor (v : String) (u : String) (t : Option String)
    (l : List Event) : lastWriteFor v (Event.readCursor u t :: l) = lastWriteFor v l := rfl

/-- a trace whose cursor writes all target `uid` writes nothing for any
other key -/
theorem lastWriteFor_none_of_ne (u uid : String) (evs : List Event)
    (h : ∀ v x, Event.setCursor v x ∈ evs → v = uid) (hne : u ≠ uid) :
    lastWriteFor u evs = none := by
  induction evs with
  | nil => rfl
  | cons a rest ih =>
    have hr := ih (fun v x hm => h v x (by simp [hm]))
    cases a with
    | setCursor v x =>
      have hv : v = uid := h v x (by simp)
      simp only [lastWriteFor, hr]
      rw [if_neg (by rw [hv]; exact fun hh => hne (Eq.symm hh))]
    | readToken a b => simpa [lastWriteFor] using hr
    | readCursor a b => simpa [lastWriteFor] using hr
    | deltaCall a => simpa [lastWriteFor] using hr
    | getFile a => simpa [lastWriteFor] using hr
    | putFile a b c => simpa [lastWriteFor] using hr
    | shareCall a => simpa [lastWriteFor] using hr

/-! ## Claim theorems -/

/-- C2: for every uid with no stored credential, `run(uid)` fails with a
MissingCredential error (the client constructor raises on a missing token)
and performs no storage mutation: the trace holds exactly the two store
reads — no delta call, no file read or write, no share call, no cursor
write — and the cursors map is returned unchanged. -/
theorem claim_c2 (w : World) (fuel : Nat) (uid : String) (h : w.tokens uid = none) :
    process_user w fuel uid =
      ⟨[Event.readToken uid none, Event.readCursor uid (w.cursors uid)],
        .failed .missingCredential, w.cursors⟩ := by
  simp [process_user, h]

theorem claim_c2_witness :
    process_user wNoTok 3 "nobody" =
      ⟨[Event.readToken "nobody" none, Event.readCursor "nobody" none],
        .failed .missingCredential, wNoTok.cursors⟩ :=
  claim_c2 wNoTok 3 "nobody" rfl

/-- C5: every change entry that is a deletion (no metadata), a directory,
or whose path does not end in `.md` is skipped silently: processing it
emits no events (no read, write or share call) and completes without
error. -/
theorem claim_c5 (w : World) (path : String) (m : Option FileMetadata)
    (h : m = none ∨ (∃ mm, m = some mm ∧ mm.is_dir = true) ∨ strEndsWith path ".md" = false) :
    processEntry w path m = ([], true) := by
  apply processEntry_skip
  rcases h with rfl | hdir | hmd
  · rfl
  · obtain ⟨mm, rfl, hdir2⟩ := hdir
    simp [skipEntry, hdir2]
  · cases m with
    | none => rfl
    | some mm => simp [skipEntry, hmd]

theorem claim_c5_witness :
    processEntry wDemo "/pics" (some ⟨true⟩) = ([], true) ∧
    processEntry wDemo "/gone.md" none = ([], true) ∧
    processEntry wDemo "/a.txt" (some ⟨false⟩) = ([], true) :=
  ⟨claim_c5 wDemo "/pics" (some ⟨true⟩) (Or.inr (Or.inl ⟨⟨true⟩, rfl, rfl⟩)),
   claim_c5 wDemo "/gone.md" none (Or.inl rfl),
   claim_c5 wDemo "/a.txt" (some ⟨false⟩) (Or.inr (Or.inr (by decide)))⟩

/-- C6: every entry that passes the filter — whether or not its content
already begins with the annotation marker — has the rendered HTML written
to the sibling path (the `.md` extension replaced by `.html`), with the
overwrite flag set, as the first storage write of the entry, before the
idempotency check is consulted (any share or source write comes after it
in the trace). -/
theorem claim_c6 (w : World) (path : String) (m : Option FileMetadata) (md html : String)
    (hskip : skipEntry path m = false)
    (hread : w.readFile path = some md)
    (hrender : w.render md = some html)
    (hput : w.put (htmlNameOf path) html = true) :
    ∃ stem rest b,
      path = stem ++ ".md" ∧
      htmlNameOf path = stem ++ ".html" ∧
      processEntry w path m =
        (Event.getFile path :: Event.putFile (htmlNameOf path) html true :: rest, b) := by
  obtain ⟨mm, hmm, hdir, hmd⟩ := skipEntry_false path m hskip
  obtain ⟨pre, hpre⟩ : ∃ pre, path.data = pre ++ ('.' :: 'm' :: 'd' :: []) := by
    have hs : ".md".data <:+ path.data := List.isSuffixOf_iff_suffix.mp hmd
    obtain ⟨t, ht⟩ := hs
    exact ⟨t, ht.symm⟩
  have hlen : path.data.length = pre.length + 3 := by
    rw [hpre]
    simp
  have hstem1 : path = String.mk pre ++ ".md" := by
    apply String.ext
    simpa [String.data_append] using hpre
  have hstem2 : htmlNameOf path = String.mk pre ++ ".html" := by
    apply String.ext
    simp only [htmlNameOf, String.data_append, hpre, hlen]
    rw [show (pre ++ ['.', 'm', 'd']).length - 3 = pre.length from by simp]
    rw [List.take_left]
  suffices hmain : ∃ rest b, processEntry w path m =
      (Event.getFile path :: Event.putFile (htmlNameOf path) html true :: rest, b) by
    obtain ⟨rest, b, hh⟩ := hmain
    exact ⟨String.mk pre, rest, b, hstem1, hstem2, hh⟩
  simp only [processEntry, hskip, Bool.false_eq_true, if_false, hread, hrender, hput,
    Bool.true_eq_false]
  repeat' split
  all_goals exact ⟨_, _, rfl⟩

theorem claim_c6_witness :
    (processEntry wDemo "/notes.md" (some ⟨false⟩)).1.take 2 =
      [Event.getFile "/notes.md", Event.putFile "/notes.html" "<h1>Hello</h1>" true] := by
  obtain ⟨stem, rest, b, h1, h2, h3⟩ :=
    claim_c6 wDemo "/notes.md" (some ⟨false⟩) "# Hello" "<h1>Hello</h1>" (by decide) rfl rfl rfl
  rw [h3]
  have hn : htmlNameOf "/notes.md" = "/notes.html" := by decide
  rw [hn]
  rfl

/-- C1: (a) processing an entry whose fetched content has the annotation
marker as its first line creates no share link and performs no write back
to the source path; (b) a second `run(uid)` against an unchanged set of
already-annotated files — so the delta page at the stored cursor is empty
with no more pages — makes no share call and no file read or write at all.
-/
theorem claim_c1 :
    (∀ (w : World) (path : String) (m : Option FileMetadata),
      (∀ md, w.readFile path = some md → firstLine md = MARKER) →
      (processEntry w path m).1.filter isShareEv = [] ∧
      (processEntry w path m).1.filter (isWriteTo path) = []) ∧
    (∀ (w : World) (uid tok c c2 : String) (fuel : Nat),
      w.tokens uid = some tok →
      w.cursors uid = some c →
      w.delta (some c) = some ⟨[], c2, false⟩ →
      (process_user w fuel uid).events.filter isShareEv = [] ∧
      (process_user w fuel uid).events.filter isEntryEv = []) := by
  constructor
  · intro w path m hmark
    rcases hsk : skipEntry path m with _ | _
    · rcases hrd : w.readFile path with _ | md
      · constructor <;>
          simp [processEntry, hsk, hrd, List.filter_cons, isShareEv, isWriteTo]
      · have hm := hmark md hrd
        have hmne : (firstLine md != MARKER) = false := by simp [hm]
        obtain ⟨mm, hmm, hdir, hmd⟩ := skipEntry_false path m hsk
        have hne : htmlNameOf path ≠ path := htmlNameOf_ne path hmd
        have hneb : (htmlNameOf path == path) = false := by
          simp [hne]
        rcases hrn : w.render md with _ | html
        · constructor <;>
            simp [processEntry, hsk, hrd, hrn, List.filter_cons, isShareEv, isWriteTo]
        · rcases hpt : w.put (htmlNameOf path) html with _ | _
          · constructor <;>
              simp [processEntry, hsk, hrd, hrn, hpt, hmne, List.filter_cons, isShareEv,
                isWriteTo, hneb]
          · constructor <;>
              simp [processEntry, hsk, hrd, hrn, hpt, hmne, List.filter_cons, isShareEv,
                isWriteTo, hneb]
    · constructor <;> simp [processEntry, hsk]
  · intro w uid tok c c2 fuel htok hcur hdelta
    rcases fuel with _ | fuel
    · constructor <;>
        simp [process_user, htok, hcur, runLoop, List.filter_cons, isShareEv, isEntryEv]
    · constructor <;>
        simp [process_user, htok, hcur, runLoop, hdelta, processEntries, List.filter_cons,
          isShareEv, isEntryEv]

theorem claim_c1_witness :
    ((processEntry wAnn "/notes.md" (some ⟨false⟩)).1.filter isShareEv = [] ∧
      (processEntry wAnn "/notes.md" (some ⟨false⟩)).1.filter (isWriteTo "/notes.md") = []) ∧
    ((process_user wAnn 4 "u1").events.filter isShareEv = [] ∧
      (process_user wAnn 4 "u1").events.filter isEntryEv = []) := by
  constructor
  · apply claim_c1.1
    intro md hmd
    have h2 : wAnn.readFile "/notes.md" =
        some "<!-- Published file url:\nhttps://x\n-->\n# Hello" := rfl
    rw [h2] at hmd
    injection hmd with hmd2
    rw [← hmd2]
    decide
  · exact claim_c1.2 wAnn "u1" "tok" "c9" "c9" 4 rfl rfl rfl

/-- C4: in a successful run every batch persists exactly the cursor that
batch returned, after the batch and before the next delta call (the
batch-landmark subtrace is a strict alternation of delta calls and cursor
writes); every subsequent delta call is made with the value just persisted;
and the final stored cursor is the last batch's cursor — the cursor is
never rewound by a successful run. -/
theorem claim_c4 (w : World) (fuel : Nat) (uid : String)
    (h : (process_user w fuel uid).outcome = .ok) :
    writeVals (process_user w fuel uid).events ≠ [] ∧
    (deltaArgs (process_user w fuel uid).events).length =
      (writeVals (process_user w fuel uid).events).length ∧
    batchTrace (process_user w fuel uid).events =
      zipBatchEvents uid (deltaArgs (process_user w fuel uid).events)
        (writeVals (process_user w fuel uid).events) ∧
    (∀ i v, (writeVals (process_user w fuel uid).events).get? i = some v →
      ∃ a res, (deltaArgs (process_user w fuel uid).events).get? i = some a ∧
        w.delta a = some res ∧ res.cursor = v ∧
        ((deltaArgs (process_user w fuel uid).events).get? (i + 1) = none ∨
          (deltaArgs (process_user w fuel uid).events).get? (i + 1) = some (some v))) ∧
    (process_user w fuel uid).store uid =
      (writeVals (process_user w fuel uid).events).getLast? := by
  rcases htok : w.tokens uid with _ | tok
  · rw [claim_c2 w fuel uid htok] at h
    cases h
  · have hstruct : process_user w fuel uid =
        ⟨[Event.readToken uid (some tok), Event.readCursor uid (w.cursors uid)] ++
          (runLoop w uid fuel (w.cursors uid) w.cursors).events,
          (runLoop w uid fuel (w.cursors uid) w.cursors).outcome,
          (runLoop w uid fuel (w.cursors uid) w.cursors).store⟩ := by
      simp [process_user, htok]
    rw [hstruct] at h ⊢
    simp only [] at h ⊢
    have ht := runLoop_trace w uid fuel (w.cursors uid) w.cursors
    rw [h] at ht
    have hsetu := loopTrace_setUser w uid _ _ _ ht
    have hlen := (loopTrace_lengths w uid _ _ _ ht).1 rfl
    have hzip := (loopTrace_zip w uid _ _ _ ht).1 (Or.inl rfl)
    have hchain := loopTrace_chain w uid _ _ _ ht
    have hproj : ∀ (l : List Event),
        ([Event.readToken uid (some tok), Event.readCursor uid (w.cursors uid)] ++ l : List Event)
          = Event.readToken uid (some tok) :: Event.readCursor uid (w.cursors uid) :: l := by
      intro l
      rfl
    rw [hproj]
    refine ⟨by simpa using hlen.2, by simpa using hlen.1, by simpa using hzip,
      by simpa using hchain, ?_⟩
    rw [runLoop_store, applyCursorWrites_spec,
      lastWriteFor_eq_getLast uid _ hsetu]
    simp only [writeVals_cons_readToken, writeVals_cons_readCursor]
    rcases hwv : (writeVals (runLoop w uid fuel (w.cursors uid) w.cursors).events).getLast?
        with _ | v
    · rw [List.getLast?_eq_none_iff] at hwv
      exact absurd hwv hlen.2
    · rfl

theorem claim_c4_witness :
    (process_user wDemo 5 "u1").store "u1" =
      (writeVals (process_user wDemo 5 "u1").events).getLast? ∧
    batchTrace (process_user wDemo 5 "u1").events =
      zipBatchEvents "u1" (deltaArgs (process_user wDemo 5 "u1").events)
        (writeVals (process_user wDemo 5 "u1").events) := by
  have h := claim_c4 wDemo 5 "u1" (by decide)
  exact ⟨h.2.2.2.2, h.2.2.1⟩

/-- C8: when a storage or renderer call fails mid-batch the run aborts with
an upstream failure; the final cursors map is exactly the initial map
overlaid with the writes the trace performed before the failure (no
rollback), so keys other than uid are untouched, the uid cursor keeps the
last completed batch's value (or its initial value when no batch
completed), and the aborted batch — everything after the final delta
call — contains no cursor write. -/
theorem claim_c8 (w : World) (fuel : Nat) (uid : String)
    (h : (process_user w fuel uid).outcome = .failed RunError.upstream) :
    (∀ u, (process_user w fuel uid).store u =
      (match lastWriteFor u (process_user w fuel uid).events with
       | some c => some c
       | none => w.cursors u)) ∧
    (∀ u, u ≠ uid → (process_user w fuel uid).store u = w.cursors u) ∧
    (process_user w fuel uid).store uid =
      (match (writeVals (process_user w fuel uid).events).getLast? with
       | some c => some c
       | none => w.cursors uid) ∧
    (∃ pre cL post,
      (process_user w fuel uid).events =
        (Event.readToken uid (w.tokens uid) :: Event.readCursor uid (w.cursors uid) :: pre)
          ++ Event.deltaCall cL :: post ∧
      post.all isEntryEv = true) := by
  rcases htok : w.tokens uid with _ | tok
  · rw [claim_c2 w fuel uid htok] at h
    cases h
  · have hstruct : process_user w fuel uid =
        ⟨Event.readToken uid (some tok) :: Event.readCursor uid (w.cursors uid) ::
          (runLoop w uid fuel (w.cursors uid) w.cursors).events,
          (runLoop w uid fuel (w.cursors uid) w.cursors).outcome,
          (runLoop w uid fuel (w.cursors uid) w.cursors).store⟩ := by
      simp [process_user, htok]
    rw [hstruct] at h ⊢
    simp only [] at h ⊢
    have ht := runLoop_trace w uid fuel (w.cursors uid) w.cursors
    rw [h] at ht
    have hsetu := loopTrace_setUser w uid _ _ _ ht
    refine ⟨?_, ?_, ?_, ?_⟩
    · intro u
      rw [runLoop_store, applyCursorWrites_spec]
      rfl
    · intro u hne
      rw [runLoop_store, applyCursorWrites_spec,
        lastWriteFor_none_of_ne u uid _ hsetu hne]
    · rw [runLoop_store, applyCursorWrites_spec, lastWriteFor_eq_getLast uid _ hsetu]
      rfl
    · obtain ⟨pre, cL, post, heq, hpost⟩ := loopTrace_failShape w uid _ _ _ ht rfl
      refine ⟨pre, cL, post, ?_, List.all_eq_true.mpr hpost⟩
      rw [heq]
      simp

theorem claim_c8_witness :
    (process_user wFail 3 "u1").store "u1" =
      (match (writeVals (process_user wFail 3 "u1").events).getLast? with
       | some c => some c
       | none => wFail.cursors "u1") ∧
    (process_user wFail 3 "u1").store "other" = wFail.cursors "other" := by
  have h := claim_c8 wFail 3 "u1" (by decide)
  exact ⟨h.2.2.1, h.2.1 "other" (by decide)⟩

/-- C9: within one run the credential and the cursor are each read from
their stores exactly once, as the first two events, before any delta call;
no later event is a store read; the first delta call uses exactly the
value the cursor read returned; and each subsequent delta call uses
exactly the cursor returned by the immediately preceding batch, never a
re-read of the store. -/
theorem claim_c9 (w : World) (fuel : Nat) (uid : String) :
    ∃ rest,
      (process_user w fuel uid).events =
        Event.readToken uid (w.tokens uid) :: Event.readCursor uid (w.cursors uid) :: rest ∧
      rest.all (fun e => !isReadEv e) = true ∧
      (deltaArgs rest = [] ∨ (deltaArgs rest).get? 0 = some (w.cursors uid)) ∧
      (∀ i v, (writeVals rest).get? i = some v →
        ∃ a res, (deltaArgs rest).get? i = some a ∧ w.delta a = some res ∧ res.cursor = v ∧
          ((deltaArgs rest).get? (i + 1) = none ∨
            (deltaArgs rest).get? (i + 1) = some (some v))) := by
  rcases htok : w.tokens uid with _ | tok
  · refine ⟨[], by simp [process_user, htok], rfl, Or.inl rfl, ?_⟩
    intro i v hv
    simp [writeVals] at hv
  · refine ⟨(runLoop w uid fuel (w.cursors uid) w.cursors).events,
      by simp [process_user, htok], ?_, ?_, ?_⟩
    · have ht := runLoop_trace w uid fuel (w.cursors uid) w.cursors
      have hnr := loopTrace_noRead w uid _ _ _ ht
      refine List.all_eq_true.mpr (fun e he => ?_)
      rw [hnr e he]
      rfl
    · exact loopTrace_head w uid _ _ _ (runLoop_trace w uid fuel (w.cursors uid) w.cursors)
    · exact loopTrace_chain w uid _ _ _ (runLoop_trace w uid fuel (w.cursors uid) w.cursors)

theorem claim_c9_witness :
    (process_user wDemo 5 "u1").events.take 2 =
      [Event.readToken "u1" (some "tok"), Event.readCursor "u1" none] ∧
    ((process_user wDemo 5 "u1").events.drop 2).all (fun e => !isReadEv e) = true := by
  obtain ⟨rest, h1, h2, h3, h4⟩ := claim_c9 wDemo 5 "u1"
  constructor
  · rw [h1]
    rfl
  · rw [h1]
    exact h2

/-- C7: when the signature check fails the handler aborts with 403 and
schedules nothing; when it succeeds and the body carries
delta.users as a list, the handler spawns one fire-and-forget
`process_user` thread per listed identifier (recorded in spawn order,
nothing waits on them) and returns the Accepted outcome (HTTP 200, empty
body). -/
theorem claim_c7 (secret : String) (rawBody : List Nat) (body : Json) (sig : Option String) :
    (validate_request secret rawBody sig = false →
      webhook secret rawBody body sig = .forbidden ∧
      scheduledOf (webhook secret rawBody body sig) = []) ∧
    (∀ d us, validate_request secret rawBody sig = true →
      jsonLookup body "delta" = some d →
      jsonLookup d "users" = some (Json.arr us) →
      webhook secret rawBody body sig = .accepted us ∧
      scheduledOf (webhook secret rawBody body sig) = us) := by
  constructor
  · intro hv
    constructor
    · simp [webhook, hv]
    · simp [webhook, hv, scheduledOf]
  · intro d us hv hd hu
    constructor
    · simp [webhook, hv, hd, hu, iterElems]
    · simp [webhook, hv, hd, hu, iterElems, scheduledOf]

theorem claim_c7_witness :
    webhook "sk" (strBytes "x")
      (Json.obj [("delta", Json.obj [("users", Json.arr [Json.str "u1"])])]) none =
      .forbidden ∧
    webhook "sk" (strBytes "x")
      (Json.obj [("delta", Json.obj [("users", Json.arr [Json.str "u1"])])])
      (some (hexdigest (hmacSha256 (strBytes "sk") (strBytes "x")))) =
      .accepted [Json.str "u1"] := by
  constructor
  · exact ((claim_c7 "sk" (strBytes "x")
      (Json.obj [("delta", Json.obj [("users", Json.arr [Json.str "u1"])])]) none).1 rfl).1
  · exact ((claim_c7 "sk" (strBytes "x")
      (Json.obj [("delta", Json.obj [("users", Json.arr [Json.str "u1"])])])
      (some (hexdigest (hmacSha256 (strBytes "sk") (strBytes "x"))))).2
      (Json.obj [("users", Json.arr [Json.str "u1"])]) [Json.str "u1"]
      (by simp [validate_request]) rfl rfl).1

/-- C10: a POST whose signature verifies but whose JSON body lacks the key
delta (or the nested key users) makes the handler raise an unhandled
lookup error — the crashed outcome, neither Accepted nor Forbidden — and
schedule no sync work: body well-formedness is an unchecked precondition.
Shown at the concrete body with no delta key and at one with delta but no
users key. -/
theorem claim_c10 :
    validate_request "sk" (strBytes "\x7b\x7d")
      (some (hexdigest (hmacSha256 (strBytes "sk") (strBytes "\x7b\x7d")))) = true ∧
    webhook "sk" (strBytes "\x7b\x7d") (Json.obj [])
      (some (hexdigest (hmacSha256 (strBytes "sk") (strBytes "\x7b\x7d")))) = .crashed ∧
    webhook "sk" (strBytes "\x7b\x7d") (Json.obj [("delta", Json.obj [])])
      (some (hexdigest (hmacSha256 (strBytes "sk") (strBytes "\x7b\x7d")))) = .crashed ∧
    scheduledOf WebhookResult.crashed = [] := by
  refine ⟨?_, ?_, ?_, rfl⟩
  · simp [validate_request]
  · simp [webhook, validate_request, jsonLookup, lookupField]
  · simp [webhook, validate_request, jsonLookup, lookupField]

theorem hexChar_injOn : ∀ a, a < 16 → ∀ b, b < 16 → hexChar a = hexChar b → a = b := by decide

theorem sha256_mem_lt (msg : List Nat) : ∀ b ∈ sha256 msg, b < 256 := by
  intro b hb
  simp only [sha256, List.mem_flatMap] at hb
  obtain ⟨wrd, hw, hb2⟩ := hb
  simp only [List.mem_cons, List.not_mem_nil, or_false] at hb2
  rcases hb2 with rfl | rfl | rfl | rfl <;> omega

theorem hmacSha256_mem_lt (key msg : List Nat) : ∀ b ∈ hmacSha256 key msg, b < 256 := by
  intro b hb
  simp only [hmacSha256] at hb
  exact sha256_mem_lt _ b hb

/-- hex encoding is injective on byte lists -/
theorem hexdigest_inj (l1 : List Nat) : ∀ l2 : List Nat, (∀ b ∈ l1, b < 256) →
    (∀ b ∈ l2, b < 256) → hexdigest l1 = hexdigest l2 → l1 = l2 := by
  induction l1 with
  | nil =>
    intro l2 _ _ he
    cases l2 with
    | nil => rfl
    | cons b t =>
      have hd := congrArg String.data he
      simp [hexdigest] at hd
  | cons a t ih =>
    intro l2 h1 h2 he
    cases l2 with
    | nil =>
      have hd := congrArg String.data he
      simp [hexdigest] at hd
    | cons b t2 =>
      have hd := congrArg String.data he
      simp only [hexdigest, List.flatMap_cons, List.cons_append, List.nil_append,
        List.cons.injEq] at hd
      obtain ⟨e1, e2, e3⟩ := hd
      have ha := h1 a (by simp)
      have hb := h2 b (by simp)
      have q1 : a / 16 % 16 = b / 16 % 16 :=
        hexChar_injOn _ (Nat.mod_lt _ (by norm_num)) _ (Nat.mod_lt _ (by norm_num)) e1
      have q2 : a % 16 = b % 16 :=
        hexChar_injOn _ (Nat.mod_lt _ (by norm_num)) _ (Nat.mod_lt _ (by norm_num)) e2
      have hab : a = b := by omega
      subst hab
      have ht2 : t = t2 := by
        apply ih t2 (fun x hx => h1 x (by simp [hx])) (fun x hx => h2 x (by simp [hx]))
        exact congrArg String.mk e3
      rw [ht2]

/-- C3 counterexample: the claim fails on the code in both directions.
First, the comparison is case-sensitive, not case-insensitive: for secret
sk and body bytes of body, the uppercase hex spelling of the correct
HMAC-SHA256 digest satisfies the claimed case-insensitive acceptance
predicate yet `validate_request` rejects it.  Second, a single-byte
mutation of the body (body to bodz) does not always flip the result: with
an unrelated provided signature both the original and the mutated body are
rejected. -/
theorem claim_c3_counterexample :
    (verifySignatureSpec "sk" (strBytes "body")
        "94A4DE64A3B09AC055CD6F1721402A6B599792F32745B550F72370887AC10A0A" = true ∧
      validate_request "sk" (strBytes "body")
        (some "94A4DE64A3B09AC055CD6F1721402A6B599792F32745B550F72370887AC10A0A") = false) ∧
    (validate_request "sk" (strBytes "body") (some "zz") = false ∧
      validate_request "sk" (strBytes "bodz") (some "zz") = false) := by
  refine ⟨⟨?_, ?_⟩, ?_, ?_⟩ <;> decide

/-- C3 amended: `validate_request` accepts exactly the lowercase hex
encoding of the HMAC-SHA256 of the exact raw body under the shared secret,
compared case-sensitively; and a mutation of the body whose HMAC digest
differs from the original (in particular any single-byte mutation that
changes the digest) flips an accepting result to a rejection. -/
theorem claim_c3_amended (secret : String) (rawBody : List Nat) (sig : String) :
    (validate_request secret rawBody (some sig) = true ↔
      sig = hexdigest (hmacSha256 (strBytes secret) rawBody)) ∧
    (∀ rawBody2, validate_request secret rawBody (some sig) = true →
      hmacSha256 (strBytes secret) rawBody2 ≠ hmacSha256 (strBytes secret) rawBody →
      validate_request secret rawBody2 (some sig) = false) := by
  have hiff : ∀ rb : List Nat, validate_request secret rb (some sig) = true ↔
      sig = hexdigest (hmacSha256 (strBytes secret) rb) := by
    intro rb
    simp [validate_request]
  refine ⟨hiff rawBody, ?_⟩
  intro rb2 hval hne
  rcases hv2 : validate_request secret rb2 (some sig) with _ | _
  · rfl
  · exfalso
    have hsig := (hiff rawBody).mp hval
    have hsig2 := (hiff rb2).mp hv2
    have hdig : hexdigest (hmacSha256 (strBytes secret) rb2)
        = hexdigest (hmacSha256 (strBytes secret) rawBody) := by
      rw [← hsig2, hsig]
    exact hne (hexdigest_inj _ _ (hmacSha256_mem_lt _ _) (hmacSha256_mem_lt _ _) hdig)

theorem claim_c3_amended_witness :
    validate_request "sk" (strBytes "body")
      (some (hexdigest (hmacSha256 (strBytes "sk") (strBytes "body")))) = true ∧
    validate_request "sk" (strBytes "bodz")
      (some (hexdigest (hmacSha256 (strBytes "sk") (strBytes "body")))) = false := by
  have h := claim_c3_amended "sk" (strBytes "body")
    (hexdigest (hmacSha256 (strBytes "sk") (strBytes "body")))
  exact ⟨h.1.mpr rfl, h.2 (strBytes "bodz") (h.1.mpr rfl) (by decide)⟩
